import Mathlib

/-!
Verification of the highlight/annotation persistence layer of the `asimov`
EPUB reader against its natural-language specification.

The embedding models:
* the IndexedDB object stores (`highlights`, `books`) as Lean lists of
  records, with `put` / `delete` / index-scan semantics spelled out
  (an index scan returns records ordered by index key, ties broken by the
  primary key, exactly as IndexedDB does);
* the database module functions `addHighlight`, `updateHighlight`,
  `deleteHighlight`, `getHighlightsByBook`, `getAllHighlights`, `addBook`,
  `deleteBook` (src/utils/db.ts);
* the React route handlers `handleHighlightSelection`,
  `handleRemoveHighlight`, `handleRemoveHighlightById`
  (src/app/routes/books.$bookId.tsx) as state transformers, with the
  fallible external calls (storage rejections, rendering-engine
  `annotations.add` / `annotations.remove` throws) injected as parameters;
* the list-panel search filter (src/app/components/HighlightsPanel.tsx);
* the one-time preload routine (src/app/utils/preload.ts) with the
  `localStorage` flag made explicit.

`Date` values are modelled as natural numbers (milliseconds since the
epoch); string keys are compared by their character sequences, matching
IndexedDB key comparison for the code points that occur in practice.
-/

/-! ### IndexedDB key order on strings -/

/-- Strict lexicographic order on character lists, comparing characters by
code point.  This is IndexedDB's comparison of string keys. -/
def keyLtChars : List Char → List Char → Bool
  | [], [] => false
  | [], _ :: _ => true
  | _ :: _, [] => false
  | a :: as, b :: bs => if a < b then true else if b < a then false else keyLtChars as bs

/-- Strict IndexedDB order on string keys. -/
def keyLt (a b : String) : Bool :=
  keyLtChars a.data b.data

/-! ### Data model (src/utils/db.ts) -/

/-- The `Highlight` record schema.  `cfiRange` is the opaque position
reference produced by the rendering engine.  Timestamps are milliseconds. -/
structure Highlight where
  id : String
  bookId : String
  cfiRange : String
  text : String
  color : String
  note : Option String
  createdAt : Nat
  updatedAt : Nat
deriving DecidableEq

/-- The `Book` record schema.  The binary `file` and `cover` blobs are kept
as opaque byte lists; the optional reading-position field (an
engine-produced range plus a floating-point percentage) is not touched by
any claim and is elided because floats are not modelled. -/
structure Book where
  id : String
  title : String
  authors : List String
  markdown : String
  locations : String
  file : List Nat
  cover : List Nat
  createdAt : Nat
  updatedAt : Nat
deriving DecidableEq

/-- The error taxonomy named by the specification for store operations.
The database module itself never constructs any of these. -/
inductive StoreError where
  | validationError
  | notFoundError
  | storageError
deriving DecidableEq

/-- IndexedDB `put` on an object store whose key path selects a string key:
insert-or-replace by key. -/
def idbPut {α : Type} (key : α → String) (store : List α) (x : α) : List α :=
  if store.any (fun r => key r == key x) then
    store.map (fun r => if key r == key x then x else r)
  else
    store ++ [x]

/-! ### Highlight store operations (src/utils/db.ts) -/

/-- `addHighlight` overwrites both timestamps with `new Date()` before the
`put`; this is that stamping step. -/
def stampNew (now : Nat) (h : Highlight) : Highlight :=
  { h with createdAt := now, updatedAt := now }

/-- `addHighlight(highlight)`: sets `createdAt` and `updatedAt` to the
current time and `put`s the record.  There is no validation and no failure
path of its own (a rejection could only come from the storage layer,
which is modelled as available). -/
def addHighlight (store : List Highlight) (now : Nat) (highlight : Highlight) :
    Except StoreError (List Highlight × String) :=
  .ok (idbPut Highlight.id store (stampNew now highlight), highlight.id)

/-- `updateHighlight(highlight)`: refreshes `updatedAt` and `put`s the
record.  No existence check is performed. -/
def updateHighlight (store : List Highlight) (now : Nat) (highlight : Highlight) :
    Except StoreError (List Highlight × String) :=
  .ok (idbPut Highlight.id store { highlight with updatedAt := now }, highlight.id)

/-- `deleteHighlight(highlightId)`: IndexedDB `delete` by primary key;
resolves whether or not a record with that key exists. -/
def deleteHighlight (store : List Highlight) (highlightId : String) :
    Except StoreError (List Highlight) :=
  .ok (store.filter (fun r => r.id != highlightId))

/-- The order of the compound index `by-bookId-createdAt`: records are
ordered by `(bookId, createdAt)` with ties broken by the primary key
`id`, as IndexedDB orders index entries. -/
def hlIdxLe (a b : Highlight) : Prop :=
  keyLt a.bookId b.bookId = true ∨
    (a.bookId = b.bookId ∧
      (a.createdAt < b.createdAt ∨
        (a.createdAt = b.createdAt ∧ (keyLt a.id b.id = true ∨ a.id = b.id))))

instance : DecidableRel hlIdxLe := fun a b => by
  unfold hlIdxLe
  exact inferInstance

/-- The order of the `by-updatedAt` index: `(updatedAt, id)`. -/
def hlUpdLe (a b : Highlight) : Prop :=
  a.updatedAt < b.updatedAt ∨
    (a.updatedAt = b.updatedAt ∧ (keyLt a.id b.id = true ∨ a.id = b.id))

instance : DecidableRel hlUpdLe := fun a b => by
  unfold hlUpdLe
  exact inferInstance

/-- The upper bound of the key range used by `getHighlightsByBook`:
`Date.now() + 1000*60*60*24*365` (one year from now). -/
def yearMs : Nat := 1000 * 60 * 60 * 24 * 365

/-- `getHighlightsByBook(bookId)`: `getAll` over the compound index with
`IDBKeyRange.bound([bookId, new Date(0)], [bookId, new Date(Date.now() + yearMs)])`
(both ends inclusive).  The lower bound `new Date(0)` is the epoch, which
every `Nat` timestamp satisfies; the scan returns the matching records in
index order. -/
def getHighlightsByBook (store : List Highlight) (now : Nat) (bookId : String) :
    List Highlight :=
  List.insertionSort hlIdxLe
    (store.filter (fun h => h.bookId == bookId && decide (h.createdAt ≤ now + yearMs)))

/-- `getAllHighlights()`: a `prev`-direction cursor over the `by-updatedAt`
index, i.e. the reverse of the ascending `(updatedAt, id)` index order. -/
def getAllHighlights (store : List Highlight) : List Highlight :=
  (List.insertionSort hlUpdLe store).reverse

/-- A sequence of `addHighlight` calls (each with its own clock reading),
threading the store. -/
def runCreates (store : List Highlight) : List (Nat × Highlight) → List Highlight
  | [] => store
  | (t, h) :: rest =>
    match addHighlight store t h with
    | .ok (st, _) => runCreates st rest
    | .error _ => store

/-! ### Book store operations (src/utils/db.ts) -/

/-- `addBook(book)`: `put` into the `books` store; returns the key. -/
def addBook (books : List Book) (book : Book) : List Book × String :=
  (idbPut Book.id books book, book.id)

/-- The database state restricted to the two object stores the claims
touch (the `chats` and `settings` stores are never read or written by any
function a claim mentions). -/
structure DBState where
  books : List Book
  highlights : List Highlight
deriving DecidableEq

/-- `deleteBook(id)`: `db.delete('books', id)` — it touches only the
`books` object store. -/
def deleteBook (db : DBState) (id : String) : DBState :=
  { db with books := db.books.filter (fun b => b.id != id) }

/-! ### List-panel search filter (src/app/components/HighlightsPanel.tsx) -/

/-- JavaScript `String.prototype.toLowerCase`, modelled character-wise. -/
def jsToLower (s : String) : String :=
  String.mk (s.data.map Char.toLower)

/-- JavaScript `String.prototype.trim`: strip leading and trailing
whitespace. -/
def jsTrim (s : String) : String :=
  String.mk (((s.data.dropWhile Char.isWhitespace).reverse.dropWhile Char.isWhitespace).reverse)

/-- Contiguous-substring test on character lists (JavaScript
`String.prototype.includes`): `sub` occurs as a prefix of some suffix. -/
def containsSub (sub : List Char) : List Char → Bool
  | [] => sub.isPrefixOf []
  | c :: rest => sub.isPrefixOf (c :: rest) || containsSub sub rest

/-- `s.includes(sub)` for strings. -/
def includes (s sub : String) : Bool :=
  containsSub sub.data s.data

/-- The `filteredHighlights` memo of the highlights panel: if the trimmed
search term is empty (falsy), return the list unchanged; otherwise keep
the highlights whose lowercased `text` or lowercased `note` contains the
lowercased term (`hl.note?.toLowerCase().includes(term) || false`). -/
def filteredHighlights (searchTerm : String) (highlights : List Highlight) :
    List Highlight :=
  if jsTrim searchTerm = "" then highlights
  else
    let lowercasedSearchTerm := jsToLower searchTerm
    highlights.filter (fun hl =>
      includes (jsToLower hl.text) lowercasedSearchTerm ||
        (match hl.note with
         | some n => includes (jsToLower n) lowercasedSearchTerm
         | none => false))

/-! ### Route handlers (src/app/routes/books.$bookId.tsx)

The component state relevant to the highlight handlers.  The rendering
engine (`renditionRef.current`) is modelled as present — every handler
returns early when it is absent, leaving the state unchanged, which no
claim is about.  External failures are injected as parameters:
`removeThrows cfi` says whether `annotations.remove(cfi, 'highlight')`
throws, `putFails` whether the awaited storage write rejects, `addThrows`
whether `annotations.add` throws.  The `Bool` a handler returns records
whether it ran to completion (no caught exception, i.e. no
`console.error`), which is how the outcome is "reported". -/

structure ReaderState where
  store : List Highlight
  overlays : List String
  currentBookHighlights : List Highlight
  activeHighlightId : Option String
  activeHighlightCfiRange : Option String
  showHighlightPopup : Bool
deriving DecidableEq

/-- Events observable at the storage / rendering-engine boundary, in
execution order. -/
inductive UIEvent where
  | storePutOk (id : String)
  | storePutFail (id : String)
  | overlayAdd (cfi : String)
  | overlayAddFail (cfi : String)
deriving DecidableEq

/-- `handleHighlightSelection(color)`: build the new record, `await
addHighlight`, then append to the in-memory set, then register the
overlay, then close the popup — all inside one `try`; a throw at any step
jumps to the `catch`, which only logs.  Returns the new state and the
boundary-event trace. -/
def handleHighlightSelection (putFails addThrows : Bool) (now : Nat) (newId : String)
    (s : ReaderState) (bookId selCfi selText color : String) :
    ReaderState × List UIEvent :=
  let newHighlightData : Highlight :=
    { id := newId, bookId := bookId, cfiRange := selCfi, text := selText,
      color := color, note := none, createdAt := now, updatedAt := now }
  if putFails then
    (s, [UIEvent.storePutFail newId])
  else
    match addHighlight s.store now newHighlightData with
    | .ok (st, _) =>
      let s1 := { s with store := st,
                         currentBookHighlights := s.currentBookHighlights ++ [newHighlightData] }
      if addThrows then
        (s1, [UIEvent.storePutOk newId, UIEvent.overlayAddFail selCfi])
      else
        ({ s1 with overlays := s1.overlays ++ [selCfi], showHighlightPopup := false },
         [UIEvent.storePutOk newId, UIEvent.overlayAdd selCfi])
    | .error _ => (s, [UIEvent.storePutFail newId])

/-- `handleRemoveHighlight()`: guard on the active highlight, then inside
one `try`: `annotations.remove(activeCfiRange, 'highlight')`, `await
deleteHighlight(activeId)`, prune the in-memory set, close the popup.  If
`annotations.remove` throws, control jumps straight to the `catch` (which
logs) and `deleteHighlight` is never executed. -/
def handleRemoveHighlight (removeThrows : String → Bool) (s : ReaderState) :
    ReaderState × Bool :=
  match s.activeHighlightId, s.activeHighlightCfiRange with
  | some hid, some cfi =>
    if removeThrows cfi then
      (s, false)
    else
      match deleteHighlight s.store hid with
      | .ok st =>
        ({ s with store := st,
                  overlays := s.overlays.filter (fun c => c != cfi),
                  currentBookHighlights := s.currentBookHighlights.filter (fun hl => hl.id != hid),
                  showHighlightPopup := false,
                  activeHighlightId := none,
                  activeHighlightCfiRange := none }, true)
      | .error _ => (s, false)
  | _, _ => (s, false)

/-- `handleRemoveHighlightById(highlightId)` (panel row delete): find the
record in the in-memory set, then inside one `try`:
`annotations.remove(cfiRange, 'highlight')`, `await deleteHighlight`,
prune the set, and clear the popup state when the removed highlight was
the active one.  As above, a throw in `annotations.remove` skips the
store delete. -/
def handleRemoveHighlightById (removeThrows : String → Bool) (s : ReaderState)
    (highlightId : String) : ReaderState × Bool :=
  match s.currentBookHighlights.find? (fun hl => hl.id == highlightId) with
  | none => (s, false)
  | some hl =>
    if removeThrows hl.cfiRange then
      (s, false)
    else
      match deleteHighlight s.store highlightId with
      | .ok st =>
        let s1 := { s with store := st,
                           overlays := s.overlays.filter (fun c => c != hl.cfiRange),
                           currentBookHighlights :=
                             s.currentBookHighlights.filter (fun h => h.id != highlightId) }
        (if s.activeHighlightId = some highlightId then
          { s1 with showHighlightPopup := false,
                    activeHighlightId := none,
                    activeHighlightCfiRange := none }
         else s1, true)
      | .error _ => (s, false)

/-! ### One-time preload (src/app/utils/preload.ts) -/

/-- The outcomes of the external steps of `preloadBook`: whether `fetch`
resolved with `response.ok`, whether `parseEpub` resolved, whether the
`addBook` storage write resolved, and the book `parseEpub` produced. -/
structure PreloadEnv where
  fetchOk : Bool
  parseOk : Bool
  addOk : Bool
  parsedBook : Book
deriving DecidableEq

/-- `preloadBook(epubPath)`: if `localStorage.getItem('preloadDone') ===
'true'`, return at once.  Otherwise run fetch → parse → `addBook` inside
a `try` whose `catch` only logs, and then — outside the `try`/`catch`,
on every path — execute `localStorage.setItem('preloadDone', 'true')`.
The state is the flag value paired with the `books` store. -/
def preloadBook (env : PreloadEnv) (flag : Option String) (books : List Book) :
    Option String × List Book :=
  if flag = some "true" then
    (flag, books)
  else
    let books1 :=
      if env.fetchOk && env.parseOk && env.addOk then (addBook books env.parsedBook).1
      else books
    (some "true", books1)

/-! ### Concrete records used in witnesses and counterexamples -/

def cexC1 : Highlight :=
  { id := "h1", bookId := "b1", cfiRange := "epubcfi(/6/4)", text := "t",
    color := "yellow", note := none, createdAt := 0, updatedAt := 0 }

def hlW2 : Highlight :=
  { id := "w", bookId := "b1", cfiRange := "epubcfi(/6/6)", text := "u",
    color := "blue", note := none, createdAt := 1, updatedAt := 1 }

def cexC2 : Highlight :=
  { id := "h2", bookId := "", cfiRange := "", text := "t",
    color := "red", note := none, createdAt := 0, updatedAt := 0 }

def wA : Highlight :=
  { id := "wa", bookId := "d1", cfiRange := "c1", text := "alpha",
    color := "yellow", note := none, createdAt := 0, updatedAt := 0 }

def wB : Highlight :=
  { id := "wb", bookId := "d2", cfiRange := "c2", text := "beta",
    color := "blue", note := none, createdAt := 0, updatedAt := 0 }

def wC : Highlight :=
  { id := "wc", bookId := "d1", cfiRange := "c3", text := "gamma",
    color := "green", note := none, createdAt := 0, updatedAt := 0 }

/-- Created first, but its id sorts after `hlTieB`'s. -/
def hlTieA : Highlight :=
  { id := "b", bookId := "doc", cfiRange := "cfiA", text := "ta",
    color := "yellow", note := none, createdAt := 0, updatedAt := 0 }

/-- Created second, but its id sorts before `hlTieA`'s. -/
def hlTieB : Highlight :=
  { id := "a", bookId := "doc", cfiRange := "cfiB", text := "tb",
    color := "blue", note := none, createdAt := 0, updatedAt := 0 }

def hlK : Highlight :=
  { id := "k", bookId := "d", cfiRange := "ck", text := "kept",
    color := "yellow", note := none, createdAt := 2, updatedAt := 2 }

def hlN1 : Highlight :=
  { id := "n1", bookId := "d", cfiRange := "c1", text := "Hello World",
    color := "y", note := some "Remember This", createdAt := 0, updatedAt := 0 }

def hlN2 : Highlight :=
  { id := "n2", bookId := "d", cfiRange := "c2", text := "other",
    color := "y", note := none, createdAt := 0, updatedAt := 0 }

def hlR : Highlight :=
  { id := "r1", bookId := "d", cfiRange := "cfiR", text := "t",
    color := "y", note := none, createdAt := 0, updatedAt := 0 }

/-- A session with one stored highlight whose action menu is open. -/
def sR : ReaderState :=
  { store := [hlR], overlays := ["cfiR"], currentBookHighlights := [hlR],
    activeHighlightId := some "r1", activeHighlightCfiRange := some "cfiR",
    showHighlightPopup := true }

/-- An idle session with an empty store. -/
def sW : ReaderState :=
  { store := [], overlays := [], currentBookHighlights := [],
    activeHighlightId := none, activeHighlightCfiRange := none,
    showHighlightPopup := false }

def bookP : Book :=
  { id := "pb", title := "Preloaded", authors := [], markdown := "",
    locations := "", file := [], cover := [], createdAt := 0, updatedAt := 0 }

/-- A preload environment whose fetch step fails. -/
def envW : PreloadEnv :=
  { fetchOk := false, parseOk := true, addOk := true, parsedBook := bookP }

def bookW : Book :=
  { id := "bk1", title := "T", authors := ["A"], markdown := "m",
    locations := "l", file := [1], cover := [2], createdAt := 0, updatedAt := 0 }

/-- A highlight owned by `bookW`. -/
def hlOrphan : Highlight :=
  { id := "ho", bookId := "bk1", cfiRange := "co", text := "orphan",
    color := "y", note := none, createdAt := 3, updatedAt := 3 }

def dbW : DBState :=
  { books := [bookW], highlights := [hlOrphan] }

/-! ### Helper lemmas: the IndexedDB key order -/

theorem keyLtChars_irrefl : ∀ l : List Char, keyLtChars l l = false
  | [] => rfl
  | a :: as => by simp [keyLtChars, lt_irrefl a, keyLtChars_irrefl as]

theorem keyLtChars_connex : ∀ a b : List Char,
    keyLtChars a b = true ∨ a = b ∨ keyLtChars b a = true
  | [], [] => Or.inr (Or.inl rfl)
  | [], _ :: _ => Or.inl rfl
  | _ :: _, [] => Or.inr (Or.inr rfl)
  | a :: as, b :: bs => by
    rcases lt_trichotomy a b with h | h | h
    · exact Or.inl (by simp [keyLtChars, h])
    · subst h
      rcases keyLtChars_connex as bs with h2 | h2 | h2
      · exact Or.inl (by simp [keyLtChars, lt_irrefl a, h2])
      · exact Or.inr (Or.inl (by rw [h2]))
      · exact Or.inr (Or.inr (by simp [keyLtChars, lt_irrefl a, h2]))
    · exact Or.inr (Or.inr (by simp [keyLtChars, h]))

theorem keyLtChars_trans : ∀ a b c : List Char,
    keyLtChars a b = true → keyLtChars b c = true → keyLtChars a c = true
  | [], [], _, h1, _ => by simp [keyLtChars] at h1
  | [], _ :: _, [], _, h2 => by simp [keyLtChars] at h2
  | [], _ :: _, _ :: _, _, _ => rfl
  | _ :: _, [], _, h1, _ => by simp [keyLtChars] at h1
  | _ :: _, _ :: _, [], _, h2 => by simp [keyLtChars] at h2
  | a :: as, b :: bs, c :: cs, h1, h2 => by
    by_cases hab : a < b
    · by_cases hbc : b < c
      · simp [keyLtChars, lt_trans hab hbc]
      · by_cases hcb : c < b
        · simp [keyLtChars, hbc, hcb] at h2
        · have hbc' : b = c := le_antisymm (not_lt.mp hcb) (not_lt.mp hbc)
          have hac : a < c := hbc' ▸ hab
          simp [keyLtChars, hac]
    · by_cases hba : b < a
      · simp [keyLtChars, hab, hba] at h1
      · have hab' : a = b := le_antisymm (not_lt.mp hba) (not_lt.mp hab)
        by_cases hbc : b < c
        · have hac : a < c := hab' ▸ hbc
          simp [keyLtChars, hac]
        · by_cases hcb : c < b
          · simp [keyLtChars, hbc, hcb] at h2
          · have hbc' : b = c := le_antisymm (not_lt.mp hcb) (not_lt.mp hbc)
            have hac : a = c := hab'.trans hbc'
            simp [keyLtChars, hab, hba] at h1
            simp [keyLtChars, hbc, hcb] at h2
            subst hac
            simp [keyLtChars, lt_irrefl a, keyLtChars_trans as bs cs h1 h2]

theorem keyLt_irrefl (a : String) : keyLt a a = false :=
  keyLtChars_irrefl a.data

theorem keyLt_trans {a b c : String} (h1 : keyLt a b = true) (h2 : keyLt b c = true) :
    keyLt a c = true :=
  keyLtChars_trans a.data b.data c.data h1 h2

theorem keyLt_connex (a b : String) : keyLt a b = true ∨ a = b ∨ keyLt b a = true := by
  rcases keyLtChars_connex a.data b.data with h | h | h
  · exact Or.inl h
  · exact Or.inr (Or.inl (String.ext h))
  · exact Or.inr (Or.inr h)

theorem keyLt_ne {a b : String} (h : keyLt a b = true) : a ≠ b := by
  intro he
  subst he
  simp [keyLt_irrefl] at h

theorem keyLt_asymm {a b : String} (h : keyLt a b = true) : keyLt b a = false := by
  cases hba : keyLt b a with
  | false => rfl
  | true => exact absurd (keyLt_trans h hba) (by simp [keyLt_irrefl])

theorem hlIdxLe_total (a b : Highlight) : hlIdxLe a b ∨ hlIdxLe b a := by
  rcases keyLt_connex a.bookId b.bookId with h | h | h
  · exact Or.inl (Or.inl h)
  · rcases Nat.lt_trichotomy a.createdAt b.createdAt with h2 | h2 | h2
    · exact Or.inl (Or.inr ⟨h, Or.inl h2⟩)
    · rcases keyLt_connex a.id b.id with h3 | h3 | h3
      · exact Or.inl (Or.inr ⟨h, Or.inr ⟨h2, Or.inl h3⟩⟩)
      · exact Or.inl (Or.inr ⟨h, Or.inr ⟨h2, Or.inr h3⟩⟩)
      · exact Or.inr (Or.inr ⟨h.symm, Or.inr ⟨h2.symm, Or.inl h3⟩⟩)
    · exact Or.inr (Or.inr ⟨h.symm, Or.inl h2⟩)
  · exact Or.inr (Or.inl h)

theorem hlIdxLe_trans {a b c : Highlight} (h1 : hlIdxLe a b) (h2 : hlIdxLe b c) :
    hlIdxLe a c := by
  rcases h1 with h1 | ⟨hbk1, h1⟩
  · rcases h2 with h2 | ⟨hbk2, _⟩
    · exact Or.inl (keyLt_trans h1 h2)
    · exact Or.inl (hbk2 ▸ h1)
  · rcases h2 with h2 | ⟨hbk2, h2⟩
    · exact Or.inl (hbk1 ▸ h2)
    · refine Or.inr ⟨hbk1.trans hbk2, ?_⟩
      rcases h1 with h1 | ⟨hct1, h1⟩
      · rcases h2 with h2 | ⟨hct2, _⟩
        · exact Or.inl (Nat.lt_trans h1 h2)
        · exact Or.inl (hct2 ▸ h1)
      · rcases h2 with h2 | ⟨hct2, h2⟩
        · exact Or.inl (hct1 ▸ h2)
        · refine Or.inr ⟨hct1.trans hct2, ?_⟩
          rcases h1 with h1 | h1
          · rcases h2 with h2 | h2
            · exact Or.inl (keyLt_trans h1 h2)
            · exact Or.inl (h2 ▸ h1)
          · rcases h2 with h2 | h2
            · exact Or.inl (h1 ▸ h2)
            · exact Or.inr (h1.trans h2)

/-! ### Helper lemmas: `idbPut` -/

theorem idbPut_of_fresh {α : Type} (key : α → String) (store : List α) (x : α)
    (h : ∀ r ∈ store, key r ≠ key x) : idbPut key store x = store ++ [x] := by
  have hA : store.any (fun r => key r == key x) = false := by
    rw [List.any_eq_false]
    intro r hr
    simp only [beq_iff_eq]
    exact h r hr
  simp [idbPut, hA]

theorem mem_idbPut_self {α : Type} (key : α → String) (store : List α) (x : α) :
    x ∈ idbPut key store x := by
  unfold idbPut
  split
  · rename_i hany
    rw [List.any_eq_true] at hany
    obtain ⟨r, hr, hk⟩ := hany
    rw [beq_iff_eq] at hk
    exact List.mem_map.mpr ⟨r, hr, by simp [hk]⟩
  · simp

/-! ### Helper lemmas: creation sequences and substring search -/

theorem runCreates_cons (store : List Highlight) (t : Nat) (h : Highlight)
    (rest : List (Nat × Highlight)) :
    runCreates store ((t, h) :: rest)
      = runCreates (idbPut Highlight.id store (stampNew t h)) rest :=
  rfl

theorem runCreates_eq_map (cs : List (Nat × Highlight)) :
    ∀ store : List Highlight,
      (∀ p ∈ cs, ∀ r ∈ store, r.id ≠ p.2.id) →
      (cs.map (fun p => p.2.id)).Nodup →
      runCreates store cs = store ++ cs.map (fun p => stampNew p.1 p.2) := by
  induction cs with
  | nil =>
    intro store _ _
    simp [runCreates]
  | cons p rest ih =>
    obtain ⟨t, h⟩ := p
    intro store hfresh hnodup
    have hput : idbPut Highlight.id store (stampNew t h) = store ++ [stampNew t h] := by
      apply idbPut_of_fresh
      intro r hr
      have := hfresh (t, h) (List.mem_cons_self _ _) r hr
      simpa [stampNew] using this
    have hnodup2 := hnodup
    simp only [List.map_cons] at hnodup2
    have hhead : h.id ∉ rest.map (fun p => p.2.id) := (List.nodup_cons.mp hnodup2).1
    have hfresh' : ∀ p ∈ rest, ∀ r ∈ store ++ [stampNew t h], r.id ≠ p.2.id := by
      intro q hq r hr
      rcases List.mem_append.mp hr with hr' | hr'
      · exact hfresh q (List.mem_cons_of_mem _ hq) r hr'
      · have hre : r = stampNew t h := by simpa using hr'
        subst hre
        intro heq
        apply hhead
        have heq' : h.id = q.2.id := heq
        rw [heq']
        exact List.mem_map_of_mem _ hq
    have hnodup' : (rest.map (fun p => p.2.id)).Nodup :=
      (List.nodup_cons.mp hnodup2).2
    rw [runCreates_cons, hput, ih (store ++ [stampNew t h]) hfresh' hnodup']
    simp

theorem containsSub_iff (sub : List Char) : ∀ hay : List Char,
    containsSub sub hay = true ↔ sub <:+: hay
  | [] => by
    simp [containsSub, List.isPrefixOf_iff_prefix, List.prefix_nil, List.infix_nil]
  | c :: rest => by
    simp [containsSub, List.isPrefixOf_iff_prefix, containsSub_iff sub rest,
      List.infix_cons_iff]

/-! ### Claim theorems -/

/-- C1 (corrected), counterexample: `updateHighlight` on a store that has
no record with the highlight's id (here: the empty store) does not fail
with `NotFoundError` — it resolves and inserts the record. -/
theorem updateHighlight_unknown_id_cex :
    updateHighlight [] 7 cexC1 = .ok ([{ cexC1 with updatedAt := 7 }], "h1") := by
  rfl

/-- C1 (amended): for every highlight whose id is not present in the
highlights store, `updateHighlight` does not fail; the `put` upserts,
appending the record (with `updatedAt` refreshed) to the store and
returning its id. -/
theorem updateHighlight_unknown_id_upserts (store : List Highlight) (now : Nat)
    (h : Highlight) (habs : ∀ r ∈ store, r.id ≠ h.id) :
    updateHighlight store now h = .ok (store ++ [{ h with updatedAt := now }], h.id) := by
  unfold updateHighlight
  rw [idbPut_of_fresh]
  intro r hr
  exact habs r hr

/-- Witness for `updateHighlight_unknown_id_upserts` at a concrete store
that does not contain the updated id. -/
theorem updateHighlight_unknown_id_upserts_witness :
    updateHighlight [hlW2] 7 cexC1 = .ok ([hlW2, { cexC1 with updatedAt := 7 }], "h1") :=
  updateHighlight_unknown_id_upserts [hlW2] 7 cexC1 (by decide)

/-- C2 (corrected), counterexample: `addHighlight` with both `bookId` and
`cfiRange` empty does not fail with `ValidationError` — it resolves and
stores the (stamped) record. -/
theorem addHighlight_empty_fields_cex :
    addHighlight [] 3 cexC2 = .ok ([stampNew 3 cexC2], "h2") := by
  rfl

/-- C2 (amended): `addHighlight` performs no validation: even when
`bookId` or `cfiRange` is the empty string it succeeds, and the record
(with both timestamps stamped to the current time) is in the resulting
store. -/
theorem addHighlight_no_validation (store : List Highlight) (now : Nat)
    (h : Highlight) (_hempty : h.bookId = "" ∨ h.cfiRange = "") :
    ∃ st, addHighlight store now h = .ok (st, h.id) ∧ stampNew now h ∈ st :=
  ⟨_, rfl, mem_idbPut_self _ _ _⟩

/-- Witness for `addHighlight_no_validation` at a concrete record with an
empty `bookId`. -/
theorem addHighlight_no_validation_witness :
    ∃ st, addHighlight [] 3 cexC2 = .ok (st, "h2") ∧ stampNew 3 cexC2 ∈ st :=
  addHighlight_no_validation [] 3 cexC2 (Or.inl rfl)

/-- C5 (confirmed): `deleteHighlight` resolves on every input; deleting an
id with no matching record returns the store unchanged (so a second
delete of the same id is a no-op on the already-deleted store), and every
record with a different id survives the delete. -/
theorem deleteHighlight_idempotent (store : List Highlight) (id : String) :
    ∃ st, deleteHighlight store id = .ok st ∧
      deleteHighlight st id = .ok st ∧
      ((∀ r ∈ store, r.id ≠ id) → st = store) ∧
      (∀ r ∈ store, r.id ≠ id → r ∈ st) := by
  refine ⟨store.filter (fun r => r.id != id), rfl, ?_, ?_, ?_⟩
  · simp [deleteHighlight, List.filter_filter]
  · intro habs
    apply List.filter_eq_self.mpr
    intro r hr
    simp [habs r hr]
  · intro r hr hne
    simp [List.mem_filter, hr, hne]

/-- Witness for `deleteHighlight_idempotent`: deleting an absent id from
a one-record store leaves it untouched, twice. -/
theorem deleteHighlight_idempotent_witness :
    ∃ st, deleteHighlight [hlK] "nope" = .ok st ∧
      deleteHighlight st "nope" = .ok st ∧ st = [hlK] ∧ hlK ∈ st := by
  obtain ⟨st, h1, h2, h3, h4⟩ := deleteHighlight_idempotent [hlK] "nope"
  exact ⟨st, h1, h2, h3 (by decide), h4 hlK (by decide) (by decide)⟩

/-- C10 (confirmed): `deleteBook` leaves the highlights store entirely
unchanged: the store is equal before and after, both highlight queries
return identical results, and every highlight owned by the deleted book
remains stored. -/
theorem deleteBook_preserves_highlights (db : DBState) (id : String) :
    (deleteBook db id).highlights = db.highlights ∧
    (∀ now bid, getHighlightsByBook (deleteBook db id).highlights now bid
        = getHighlightsByBook db.highlights now bid) ∧
    getAllHighlights (deleteBook db id).highlights = getAllHighlights db.highlights ∧
    (∀ hl ∈ db.highlights, hl.bookId = id → hl ∈ (deleteBook db id).highlights) :=
  ⟨rfl, fun _ _ => rfl, rfl, fun _ hm _ => hm⟩

/-- Witness for `deleteBook_preserves_highlights`: deleting the only book
leaves its highlight stored. -/
theorem deleteBook_preserves_highlights_witness :
    (deleteBook dbW "bk1").highlights = dbW.highlights ∧
    hlOrphan ∈ (deleteBook dbW "bk1").highlights := by
  obtain ⟨h1, _, _, h4⟩ := deleteBook_preserves_highlights dbW "bk1"
  exact ⟨h1, h4 hlOrphan (by decide) (by decide)⟩

/-- C3 (confirmed): after any sequence of creations (with fresh ids, each
at a time at or before the query time) starting from an empty store,
`getHighlightsByBook bid` returns exactly the records created for `bid` —
a permutation of that set, no more, no fewer — and the returned list is
ordered by `createdAt` ascending. -/
theorem getHighlightsByBook_exact_and_sorted (cs : List (Nat × Highlight)) (now : Nat)
    (bid : String)
    (hnodup : (cs.map (fun p => p.2.id)).Nodup)
    (htimes : ∀ p ∈ cs, p.1 ≤ now) :
    (getHighlightsByBook (runCreates [] cs) now bid).Perm
        ((cs.map (fun p => stampNew p.1 p.2)).filter (fun h => h.bookId == bid)) ∧
    (getHighlightsByBook (runCreates [] cs) now bid).Sorted
        (fun a b => a.createdAt ≤ b.createdAt) := by
  have hrun : runCreates [] cs = cs.map (fun p => stampNew p.1 p.2) := by
    have := runCreates_eq_map cs [] (fun p _ r hr => absurd hr (List.not_mem_nil r)) hnodup
    simpa using this
  have hfc : (cs.map (fun p => stampNew p.1 p.2)).filter
        (fun h => h.bookId == bid && decide (h.createdAt ≤ now + yearMs))
      = (cs.map (fun p => stampNew p.1 p.2)).filter (fun h => h.bookId == bid) := by
    apply List.filter_congr
    intro h hm
    obtain ⟨p, hp, rfl⟩ := List.mem_map.mp hm
    have hle : p.1 ≤ now + yearMs := le_trans (htimes p hp) (Nat.le_add_right _ _)
    simp [stampNew, hle]
  constructor
  · unfold getHighlightsByBook
    rw [hrun, hfc]
    exact List.perm_insertionSort hlIdxLe _
  · haveI : IsTotal Highlight hlIdxLe := ⟨hlIdxLe_total⟩
    haveI : IsTrans Highlight hlIdxLe := ⟨fun _ _ _ h1 h2 => hlIdxLe_trans h1 h2⟩
    have hsorted : List.Sorted hlIdxLe (getHighlightsByBook (runCreates [] cs) now bid) :=
      List.sorted_insertionSort hlIdxLe _
    have hbk : ∀ x ∈ getHighlightsByBook (runCreates [] cs) now bid, x.bookId = bid := by
      intro x hx
      unfold getHighlightsByBook at hx
      rw [(List.perm_insertionSort hlIdxLe _).mem_iff] at hx
      have hfx := (List.mem_filter.mp hx).2
      simp at hfx
      exact hfx.1
    refine List.Pairwise.imp_of_mem ?_ hsorted
    intro a b ha hb hr
    rcases hr with hr | ⟨_, hr⟩
    · rw [hbk a ha, hbk b hb] at hr
      simp [keyLt_irrefl] at hr
    · rcases hr with hr | ⟨hr, _⟩
      · exact le_of_lt hr
      · exact le_of_eq hr

/-- Witness for `getHighlightsByBook_exact_and_sorted`: three creations,
two for document `d1` interleaved with one for `d2`. -/
theorem getHighlightsByBook_exact_and_sorted_witness :
    (getHighlightsByBook (runCreates [] [(1, wA), (2, wB), (3, wC)]) 10 "d1").Perm
        (([(1, wA), (2, wB), (3, wC)].map (fun p => stampNew p.1 p.2)).filter
          (fun h => h.bookId == "d1")) ∧
    (getHighlightsByBook (runCreates [] [(1, wA), (2, wB), (3, wC)]) 10 "d1").Sorted
        (fun a b => a.createdAt ≤ b.createdAt) :=
  getHighlightsByBook_exact_and_sorted [(1, wA), (2, wB), (3, wC)] 10 "d1"
    (by decide) (by decide)

/-- C4 (corrected), counterexample: `hlTieA` is created before `hlTieB`
in the same document with equal `createdAt`, but because `hlTieB`'s id
(`"a"`) sorts before `hlTieA`'s (`"b"`), `getHighlightsByBook` returns B
before A — insertion order is not what breaks the tie. -/
theorem tie_insertion_order_cex :
    getHighlightsByBook (runCreates [] [(5, hlTieA), (5, hlTieB)]) 5 "doc"
        = [stampNew 5 hlTieB, stampNew 5 hlTieA] ∧
      stampNew 5 hlTieB ≠ stampNew 5 hlTieA := by
  decide

/-- C4 (amended): for two highlights A then B created in the same
document with equal `createdAt`, the tie is broken by the primary key:
when B's id precedes A's in the IndexedDB key order, `getHighlightsByBook`
returns B before A regardless of insertion order. -/
theorem tie_order_by_primary_key (A B : Highlight) (t now : Nat) (bid : String)
    (hA : A.bookId = bid) (hB : B.bookId = bid) (ht : t ≤ now)
    (hid : keyLt B.id A.id = true) :
    getHighlightsByBook (runCreates [] [(t, A), (t, B)]) now bid
      = [stampNew t B, stampNew t A] := by
  have hne : A.id ≠ B.id := fun he => by
    rw [he] at hid
    simp [keyLt_irrefl] at hid
  have hrun : runCreates [] [(t, A), (t, B)] = [stampNew t A, stampNew t B] := by
    have := runCreates_eq_map [(t, A), (t, B)] []
      (fun p _ r hr => absurd hr (List.not_mem_nil r)) (by simp [hne])
    simpa using this
  have hle : t ≤ now + yearMs := le_trans ht (Nat.le_add_right _ _)
  have hfilter : [stampNew t A, stampNew t B].filter
        (fun h => h.bookId == bid && decide (h.createdAt ≤ now + yearMs))
      = [stampNew t A, stampNew t B] := by
    simp [stampNew, hA, hB, hle]
  have hnotle : ¬ hlIdxLe (stampNew t A) (stampNew t B) := by
    intro hcon
    rcases hcon with hcon | ⟨_, hcon⟩
    · have hcon' : keyLt A.bookId B.bookId = true := hcon
      rw [hA, hB] at hcon'
      simp [keyLt_irrefl] at hcon'
    · rcases hcon with hcon | ⟨_, hcon⟩
      · exact absurd hcon (by simp [stampNew])
      · rcases hcon with hcon | hcon
        · have hcon' : keyLt A.id B.id = true := hcon
          have hfalse := keyLt_asymm hid
          rw [hcon'] at hfalse
          simp at hfalse
        · exact hne hcon
  unfold getHighlightsByBook
  rw [hrun, hfilter]
  simp [List.insertionSort, List.orderedInsert, hnotle]

/-- Witness for `tie_order_by_primary_key` on the concrete tie pair. -/
theorem tie_order_by_primary_key_witness :
    getHighlightsByBook (runCreates [] [(5, hlTieA), (5, hlTieB)]) 5 "doc"
      = [stampNew 5 hlTieB, stampNew 5 hlTieA] :=
  tie_order_by_primary_key hlTieA hlTieB 5 5 "doc" rfl rfl (le_refl 5) (by decide)

/-- C8 (confirmed): the panel filter returns the full list when the
trimmed term is empty, and otherwise keeps exactly the highlights whose
lowercased `text` or lowercased `note` has the lowercased term as a
contiguous substring (a missing note never matches). -/
theorem filteredHighlights_match (searchTerm : String) (highlights : List Highlight) :
    (jsTrim searchTerm = "" → filteredHighlights searchTerm highlights = highlights) ∧
    (jsTrim searchTerm ≠ "" → ∀ hl,
      hl ∈ filteredHighlights searchTerm highlights ↔
        hl ∈ highlights ∧
          ((jsToLower searchTerm).data <:+: (jsToLower hl.text).data ∨
            ∃ n, hl.note = some n ∧
              (jsToLower searchTerm).data <:+: (jsToLower n).data)) := by
  constructor
  · intro he
    simp [filteredHighlights, he]
  · intro hne hl
    rw [show filteredHighlights searchTerm highlights
        = highlights.filter (fun hl =>
            includes (jsToLower hl.text) (jsToLower searchTerm) ||
              (match hl.note with
               | some n => includes (jsToLower n) (jsToLower searchTerm)
               | none => false)) from by rw [filteredHighlights, if_neg hne]]
    rw [List.mem_filter]
    constructor
    · rintro ⟨hmem, hmatch⟩
      refine ⟨hmem, ?_⟩
      rw [Bool.or_eq_true] at hmatch
      rcases hmatch with hm | hm
      · exact Or.inl ((containsSub_iff _ _).mp hm)
      · cases hnote : hl.note with
        | none =>
          rw [hnote] at hm
          cases hm
        | some n =>
          rw [hnote] at hm
          exact Or.inr ⟨n, rfl, (containsSub_iff _ _).mp hm⟩
    · rintro ⟨hmem, hmatch⟩
      refine ⟨hmem, ?_⟩
      rw [Bool.or_eq_true]
      rcases hmatch with hm | ⟨n, hn, hm⟩
      · exact Or.inl ((containsSub_iff _ _).mpr hm)
      · rw [hn]
        exact Or.inr ((containsSub_iff _ _).mpr hm)

/-- Witness for `filteredHighlights_match`: a whitespace-only term leaves
the list unfiltered, and a term matching `hlN1`'s text case-insensitively
satisfies the membership characterisation. -/
theorem filteredHighlights_match_witness :
    (filteredHighlights "   " [hlN1, hlN2] = [hlN1, hlN2]) ∧
    (hlN1 ∈ filteredHighlights "WORLD" [hlN1, hlN2] ↔
      hlN1 ∈ [hlN1, hlN2] ∧
        ((jsToLower "WORLD").data <:+: (jsToLower hlN1.text).data ∨
          ∃ n, hlN1.note = some n ∧
            (jsToLower "WORLD").data <:+: (jsToLower n).data)) :=
  ⟨(filteredHighlights_match "   " [hlN1, hlN2]).1 (by decide),
   (filteredHighlights_match "WORLD" [hlN1, hlN2]).2 (by decide) hlN1⟩

/-- C6 (corrected), counterexample: with the action menu open on the
stored highlight `hlR`, a throwing `annotations.remove` makes
`handleRemoveHighlight` return the state unchanged (in particular
`deleteHighlight` is not executed — the record is still in the store) and
the deletion is not reported as succeeded. -/
theorem overlay_remove_throw_cex :
    handleRemoveHighlight (fun _ => true) sR = (sR, false) ∧
      hlR ∈ (handleRemoveHighlight (fun _ => true) sR).1.store := by
  decide

/-- C6 (amended): in both deletion handlers the overlay-removal call sits
before the store delete inside one `try`, so when `annotations.remove`
throws, the caught error is only logged, the store mutation is never
executed, and the handler does not report success: the whole state is
returned unchanged. -/
theorem overlay_remove_throw_blocks_delete (removeThrows : String → Bool)
    (s : ReaderState) :
    (∀ hid cfi, s.activeHighlightId = some hid →
        s.activeHighlightCfiRange = some cfi →
        removeThrows cfi = true →
        handleRemoveHighlight removeThrows s = (s, false)) ∧
    (∀ hid hl, s.currentBookHighlights.find? (fun h => h.id == hid) = some hl →
        removeThrows hl.cfiRange = true →
        handleRemoveHighlightById removeThrows s hid = (s, false)) := by
  constructor
  · intro hid cfi h1 h2 h3
    simp [handleRemoveHighlight, h1, h2, h3]
  · intro hid hl h1 h2
    simp [handleRemoveHighlightById, h1, h2]

/-- Witness for `overlay_remove_throw_blocks_delete` on the concrete
session `sR`. -/
theorem overlay_remove_throw_blocks_delete_witness :
    handleRemoveHighlight (fun _ => true) sR = (sR, false) ∧
    handleRemoveHighlightById (fun _ => true) sR "r1" = (sR, false) := by
  obtain ⟨hA, hB⟩ := overlay_remove_throw_blocks_delete (fun _ => true) sR
  exact ⟨hA "r1" "cfiR" rfl rfl rfl, hB "r1" hlR (by decide) rfl⟩

/-- C7 (confirmed): in `handleHighlightSelection`, a successful overlay
registration event can only appear in the trace strictly after the
successful store-write event, and when the store write fails the state
gains no overlay and the trace contains no overlay registration. -/
theorem overlay_only_after_store_write (putFails addThrows : Bool) (now : Nat)
    (newId : String) (s : ReaderState) (bookId selCfi selText color : String) :
    (∀ pre post cfi,
      (handleHighlightSelection putFails addThrows now newId s bookId selCfi selText color).2
          = pre ++ UIEvent.overlayAdd cfi :: post →
        UIEvent.storePutOk newId ∈ pre) ∧
    (putFails = true →
      (handleHighlightSelection putFails addThrows now newId s bookId selCfi selText color).1
          = s ∧
      ∀ cfi, UIEvent.overlayAdd cfi ∉
        (handleHighlightSelection putFails addThrows now newId s bookId selCfi selText color).2) := by
  cases putFails with
  | true =>
    refine ⟨?_, fun _ => ⟨rfl, ?_⟩⟩
    · intro pre post cfi heq
      rw [show (handleHighlightSelection true addThrows now newId s bookId selCfi selText color).2
          = [UIEvent.storePutFail newId] from rfl] at heq
      cases pre with
      | nil => simp at heq
      | cons x pre => simp at heq
    · intro cfi
      rw [show (handleHighlightSelection true addThrows now newId s bookId selCfi selText color).2
          = [UIEvent.storePutFail newId] from rfl]
      simp
  | false =>
    refine ⟨?_, fun h => absurd h (by simp)⟩
    intro pre post cfi heq
    cases addThrows with
    | true =>
      rw [show (handleHighlightSelection false true now newId s bookId selCfi selText color).2
          = [UIEvent.storePutOk newId, UIEvent.overlayAddFail selCfi] from rfl] at heq
      cases pre with
      | nil => simp at heq
      | cons x pre =>
        cases pre with
        | nil => simp at heq
        | cons y pre => simp at heq
    | false =>
      rw [show (handleHighlightSelection false false now newId s bookId selCfi selText color).2
          = [UIEvent.storePutOk newId, UIEvent.overlayAdd selCfi] from rfl] at heq
      cases pre with
      | nil => simp at heq
      | cons x pre =>
        cases pre with
        | nil =>
          simp at heq
          simp [heq.1]
        | cons y pre => simp at heq

/-- Witness for `overlay_only_after_store_write`: on the idle session
`sW`, the successful trace puts the store write before the overlay
registration, and a failed store write leaves the state unchanged. -/
theorem overlay_only_after_store_write_witness :
    UIEvent.storePutOk "nid" ∈ [UIEvent.storePutOk "nid"] ∧
    (handleHighlightSelection true false 9 "nid" sW "bk" "cf" "tx" "red").1 = sW := by
  constructor
  · exact (overlay_only_after_store_write false false 9 "nid" sW "bk" "cf" "tx" "red").1
      [UIEvent.storePutOk "nid"] [] "cf" rfl
  · exact ((overlay_only_after_store_write true false 9 "nid" sW "bk" "cf" "tx" "red").2 rfl).1

/-- C9 (corrected), counterexample: with the flag unset and a failing
fetch step, `preloadBook` stores nothing — and still sets the
`preloadDone` flag, so the preload will never be retried. -/
theorem preload_flag_set_on_failure_cex :
    preloadBook envW none [] = (some "true", []) := by
  decide

/-- C9 (amended): when the flag already reads `'true'`, `preloadBook`
does nothing; otherwise it sets the flag to `'true'` after the attempt
regardless of success — in particular, when fetching, parsing or storing
fails, the books store is unchanged but the flag is set anyway, so a
later startup does not retry. -/
theorem preload_flag_always_set (env : PreloadEnv) (flag : Option String)
    (books : List Book) :
    (flag = some "true" → preloadBook env flag books = (flag, books)) ∧
    (flag ≠ some "true" →
      (preloadBook env flag books).1 = some "true" ∧
      ((env.fetchOk = false ∨ env.parseOk = false ∨ env.addOk = false) →
        (preloadBook env flag books).2 = books)) := by
  constructor
  · intro h
    simp [preloadBook, h]
  · intro h
    constructor
    · simp [preloadBook, h]
    · intro hf
      rcases hf with hf | hf | hf <;> simp [preloadBook, h, hf]

/-- Witness for `preload_flag_always_set` on the failing environment
`envW` with the flag set and unset. -/
theorem preload_flag_always_set_witness :
    preloadBook envW (some "true") [] = (some "true", []) ∧
    (preloadBook envW none []).1 = some "true" ∧
    (preloadBook envW none []).2 = [] := by
  refine ⟨(preload_flag_always_set envW (some "true") []).1 rfl, ?_, ?_⟩
  · exact ((preload_flag_always_set envW none []).2 (by simp)).1
  · exact ((preload_flag_always_set envW none []).2 (by simp)).2 (Or.inl rfl)
